import Mathlib

/-!
Shallow embedding of the source-side backup agent's metadata store and
pipeline orchestrator (files `source/src/state.rs`, `source/src/server.rs`,
`source/src/server/builder.rs`).

Modelling conventions:
* A `FileId` (6 random bytes in the source) is a byte list; a canonical
  path encoding is likewise a byte list (`canonical_path_repr` is the
  identity on the POSIX byte encoding, as in the `cfg(unix)` source).
* The SQLite tables `FileId(id, path)` and `File(id, version, len)` are
  lists of rows; `INSERT` is list append; the `SELECT ... ORDER BY version
  DESC LIMIT 1` of `lookup_file` is the maximal-version row of the rows
  with the given id.
* The shared random generator (`crypto::RandomApi`) is a list of
  candidate ids consumed front to back; the empty list models an
  exhausted generator (as in the repository's `TestRandom`).
* Fallible operations return `Except`; a failed operation rolls its
  transaction back, so the state it returns is the state it was given.
* The store worker serializes commands, so the async command channel is
  modelled by direct sequential calls; `StoreRunner.run` folds a list of
  received commands, each tagged with whether the caller's oneshot
  receiver is still alive when the reply is sent (`send(..).unwrap()`
  panics exactly when it is not).
-/

abbrev FileId := List Nat

abbrev PathB := List Nat

/-- A file observation produced by the filesystem walk: path plus length. -/
structure ShallowInfo where
  file : PathB
  len : Nat
deriving DecidableEq

/-- Latest known state of a file: `(FileId, version, length)`. -/
structure Partial where
  file_id : FileId
  version : Nat
  len : Nat
deriving DecidableEq

/-- Whether a change took place in the file or not. -/
inductive Change where
  | Unchanged (p : Partial)
  | Changed (p : Option Partial)
deriving DecidableEq

/-- Errors surfaced by store operations. -/
inductive StoreError where
  | randomExhausted
  | dbError (code : Nat)
deriving DecidableEq

/-- A row of the `FileId(id BLOB PRIMARY KEY, path BLOB)` table. -/
structure FileIdRow where
  id : FileId
  path : PathB
deriving DecidableEq

/-- A row of the `File(id, version, len)` table. -/
structure FileRow where
  id : FileId
  version : Nat
  len : Nat
deriving DecidableEq

/-- The persistent state owned by the store worker: both tables. -/
structure StoreState where
  fileIds : List FileIdRow
  files : List FileRow
deriving DecidableEq

/-- `canonical_path_repr` for `cfg(unix)`: the raw `OsStr` bytes of the path
(the model carries paths as their byte encoding already). -/
def canonical_path_repr (path : PathB) : PathB := path

/-- Outcome of one attempted `INSERT INTO FileId(id, path)`, mirroring the
match arms in `get_file_id`: success, a uniqueness-constraint violation,
or any other database error (carrying its code). -/
inductive AttemptResult where
  | ok
  | constraintViolation
  | otherError (code : Nat)
deriving DecidableEq

/-- The deterministic database behaviour of the id insert: a uniqueness
violation exactly when the candidate id is already a primary key of the
`FileId` table. -/
def dbAttempt (tbl : List FileIdRow) (id : FileId) : AttemptResult :=
  if tbl.any (fun r => r.id == id) then .constraintViolation else .ok

/-- The `while !success` retry loop of `get_file_id`: attempt the insert
with the current candidate; on a uniqueness violation draw the next
candidate from the generator and retry; on any other database error
abort; an exhausted generator surfaces as an error from
`generate_file_id`. Returns the accepted id and the unconsumed
generator tail. -/
def idRetryLoop (attempt : FileId → AttemptResult) :
    FileId → List FileId → (Except StoreError FileId) × List FileId
  | id, gen =>
    match attempt id with
    | .ok => (.ok id, gen)
    | .constraintViolation =>
      match gen with
      | [] => (.error .randomExhausted, [])
      | c :: rest => idRetryLoop attempt c rest
    | .otherError code => (.error (.dbError code), gen)

/-- `get_file_id`: look the canonical path up in the `FileId` table; if
present return the stored id, otherwise insert a fresh random id for it,
retrying on id collisions. Returns the id, the resulting table, and the
unconsumed generator. -/
def get_file_id (rnd : List FileId) (path : PathB) (tbl : List FileIdRow) :
    (Except StoreError (FileId × List FileIdRow)) × List FileId :=
  let canonical := canonical_path_repr path
  match tbl.find? (fun r => r.path == canonical) with
  | some r => (.ok (r.id, tbl), rnd)
  | none =>
    match rnd with
    | [] => (.error .randomExhausted, [])
    | c :: rest =>
      match idRetryLoop (dbAttempt tbl) c rest with
      | (.ok id, rnd') => (.ok (id, tbl ++ [⟨id, canonical⟩]), rnd')
      | (.error e, rnd') => (.error e, rnd')

/-- `lookup_file`: `SELECT version, len FROM File WHERE id = ?1 ORDER BY
version DESC LIMIT 1` — the row with the greatest version among the rows
with the given id (versions are unique per id by the primary key). -/
def lookup_file (file_id : FileId) (files : List FileRow) : Option Partial :=
  match (files.filter (fun r => r.id == file_id)).argmax (fun r => r.version) with
  | none => none
  | some r => some ⟨file_id, r.version, r.len⟩

/-- `StoreRunner::shallow_check`: resolve the FileId (creating it if
absent), fetch the latest Partial, and classify: no Partial is
`Changed(None)`; a length mismatch is `Changed(Some(prev))`; an equal
length is `Unchanged(prev)`. A failure rolls the transaction back. -/
def StoreRunner.shallow_check (rnd : List FileId) (info : ShallowInfo)
    (st : StoreState) : (Except StoreError Change) × StoreState × List FileId :=
  match get_file_id rnd info.file st.fileIds with
  | (.error e, rnd') => (.error e, st, rnd')
  | (.ok (fid, tbl'), rnd') =>
    let st' : StoreState := ⟨tbl', st.files⟩
    match lookup_file fid st'.files with
    | none => (.ok (.Changed none), st', rnd')
    | some p =>
      if p.len ≠ info.len then (.ok (.Changed (some p)), st', rnd')
      else (.ok (.Unchanged p), st', rnd')

/-- `StoreRunner::insert`: resolve the FileId, compute the next version
(0 when no row exists for the id, else the latest version plus one),
append the `(id, version, len)` row and return the resulting Partial. -/
def StoreRunner.insert (rnd : List FileId) (info : ShallowInfo)
    (st : StoreState) : (Except StoreError Partial) × StoreState × List FileId :=
  match get_file_id rnd info.file st.fileIds with
  | (.error e, rnd') => (.error e, st, rnd')
  | (.ok (fid, tbl'), rnd') =>
    let version : Nat :=
      match lookup_file fid st.files with
      | none => 0
      | some p => p.version + 1
    (.ok ⟨fid, version, info.len⟩,
     ⟨tbl', st.files ++ [⟨fid, version, info.len⟩]⟩, rnd')

/-- The command enum sent over the store's channel (reply channels are
modelled by the `receiverAlive` tag of `Cmd`). -/
inductive StateOp where
  | ShallowCheck (info : ShallowInfo)
  | Insert (info : ShallowInfo)
deriving DecidableEq

/-- A received command together with whether the caller's oneshot
receiver is still alive when the worker sends the reply. -/
structure Cmd where
  op : StateOp
  receiverAlive : Bool
deriving DecidableEq

/-- Process one command: run the operation and thread the state and the
generator (the reply itself travels back on the oneshot channel). -/
def runCmd (op : StateOp) (st : StoreState) (rnd : List FileId) :
    StoreState × List FileId :=
  match op with
  | .ShallowCheck info =>
    let r := StoreRunner.shallow_check rnd info st
    (r.2.1, r.2.2)
  | .Insert info =>
    let r := StoreRunner.insert rnd info st
    (r.2.1, r.2.2)

deriving instance DecidableEq for Except

/-- How the worker's execution ends: `run` returned with a result, or the
worker panicked (an `unwrap` failed). -/
inductive WorkerOutcome where
  | finished (res : Except StoreError Unit)
  | panicked
deriving DecidableEq

/-- `StoreRunner::run`'s receive loop (the idempotent `CREATE TABLE IF NOT
EXISTS` prologue is a no-op on the modelled state): process each received
command, reply via `send(..).unwrap()` — which panics exactly when the
caller has dropped its receiver — and return `Ok(())` when the channel
closes. -/
def StoreRunner.run :
    List Cmd → StoreState → List FileId → WorkerOutcome × StoreState × List FileId
  | [], st, rnd => (.finished (.ok ()), st, rnd)
  | c :: rest, st, rnd =>
    let s := runCmd c.op st rnd
    if c.receiverAlive then StoreRunner.run rest s.1 s.2
    else (.panicked, s.1, s.2)

/-- Errors observable from `Store::shutdown`: the `JoinHandle` error of a
panicked worker, or a terminal worker error (were one propagated). -/
inductive ShutdownError where
  | joinError
  | worker (e : StoreError)
deriving DecidableEq

/-- The closure spawned in `Store::initialize`: it runs the runner, logs a
terminal error via `tracing::error!`, and returns `Ok(())` regardless. -/
def workerClosureResult (o : WorkerOutcome) : WorkerOutcome :=
  match o with
  | .finished _ => .finished (.ok ())
  | .panicked => .panicked

/-- `Store::shutdown`: drop the sender (which makes the runner stop) and
`self.handle.await?` — a panicked worker surfaces as a join error, and
otherwise the closure's result is returned as-is. -/
def Store.shutdown (o : WorkerOutcome) : Except ShutdownError Unit :=
  match workerClosureResult o with
  | .panicked => .error .joinError
  | .finished (.ok _) => .ok ()
  | .finished (.error e) => .error (.worker e)

/-- Failure of the external descriptor-encryption collaborator
(`Keys::encrypt_descriptor` fails only on key/config errors). -/
inductive EncryptError where
  | keyError
deriving DecidableEq

/-- Failure reported by the chunked reader's completion. -/
inductive ReadError where
  | ioError
deriving DecidableEq

/-- The fatal errors that `single_file` (and hence `single_pass`)
propagates: a store error, an encryption error, or a file read error. -/
inductive PassError where
  | store (e : StoreError)
  | crypto (e : EncryptError)
  | read (e : ReadError)
deriving DecidableEq

/-- `Server::single_file`, with the external collaborators parameterized:
`encryptResult` is what `encrypt_descriptor` returns and `readerResult`
is the chunked reader's completion value (the chunk hash/send loop is
state-free for the store: send failures are only logged). Control flow of
the source: shallow check; `Unchanged` returns at once; `Changed` first
inserts a version (whose Partial feeds the descriptor), then encrypts the
descriptor, then reads the chunks, and on successful reader completion
inserts once more; every `?` failure propagates. -/
def Server.single_file (encryptResult : Except EncryptError Unit)
    (readerResult : Except ReadError Nat) (rnd : List FileId)
    (info : ShallowInfo) (st : StoreState) :
    (Except PassError Unit) × StoreState × List FileId :=
  match StoreRunner.shallow_check rnd info st with
  | (.error e, st1, rnd1) => (.error (.store e), st1, rnd1)
  | (.ok (.Unchanged _), st1, rnd1) => (.ok (), st1, rnd1)
  | (.ok (.Changed _), st1, rnd1) =>
    match StoreRunner.insert rnd1 info st1 with
    | (.error e, st2, rnd2) => (.error (.store e), st2, rnd2)
    | (.ok _, st2, rnd2) =>
      match encryptResult with
      | .error e => (.error (.crypto e), st2, rnd2)
      | .ok _ =>
        match readerResult with
        | .error e => (.error (.read e), st2, rnd2)
        | .ok _ =>
          match StoreRunner.insert rnd2 info st2 with
          | (.error e, st3, rnd3) => (.error (.store e), st3, rnd3)
          | (.ok _, st3, rnd3) => (.ok (), st3, rnd3)

/-- A walk event as consumed by `single_pass`: a file observation
(carrying the collaborator behaviours its processing will see) or a
per-path walk error. -/
inductive WalkEvent where
  | File (info : ShallowInfo) (enc : Except EncryptError Unit)
      (reader : Except ReadError Nat)
  | Error (path : PathB)
deriving DecidableEq

/-- `Server::single_pass`: drain the walk events; a per-path error is
logged and skipped; a file observation runs `single_file`, whose failure
aborts the pass via `?`; walk completion (and a walk-termination error,
which is only logged) ends the pass with `Ok(())`. -/
def Server.single_pass :
    List WalkEvent → StoreState → List FileId →
      (Except PassError Unit) × StoreState × List FileId
  | [], st, rnd => (.ok (), st, rnd)
  | .Error _ :: rest, st, rnd => Server.single_pass rest st rnd
  | .File info enc rd :: rest, st, rnd =>
    match Server.single_file enc rd rnd info st with
    | (.ok _, st', rnd') => Server.single_pass rest st' rnd'
    | (.error e, st', rnd') => (.error e, st', rnd')

/-- Errors returned by `serve`. -/
inductive ServeError where
  | pass (e : PassError)
  | shutdownFailed (e : ShutdownError)
deriving DecidableEq

/-- What a `serve` execution yields: its result and whether
`Store::shutdown` was invoked before returning. -/
structure ServeOutcome where
  result : Except ServeError Unit
  shutdownInvoked : Bool
deriving DecidableEq

/-- `Server::serve`: `self.single_pass().await?` then
`self.store.shutdown().await?` — the `?` on the pass returns early,
before the shutdown call. `workerOutcome` is how the store worker ends
when shutdown is reached. -/
def Server.serve (events : List WalkEvent) (st : StoreState)
    (rnd : List FileId) (workerOutcome : WorkerOutcome) : ServeOutcome :=
  match Server.single_pass events st rnd with
  | (.error e, _, _) => ⟨.error (.pass e), false⟩
  | (.ok _, _, _) =>
    match Store.shutdown workerOutcome with
    | .error e => ⟨.error (.shutdownFailed e), true⟩
    | .ok _ => ⟨.ok (), true⟩

/-- The Builder's accumulated configuration (`server/builder.rs`);
payloads of the external settings types are opaque. -/
structure Builder where
  roots : List PathB
  connection : Option Nat
  broker : Option Nat
  db : PathB
  rnd : Option (List FileId)
  source_key : Option Nat
deriving DecidableEq

/-- `BuilderError` as declared in `server/builder.rs` (the two `#[from]`
conversions carry no payload in the model). -/
inductive BuilderError where
  | MissingConnection
  | MissingBrokerInfo
  | MissingCrypto
  | FingerprinterError
  | UnknownError
deriving DecidableEq

/-- The awaited side-effecting constructions performed by `build`, in
program order. -/
inductive IOAction where
  | brokerConnect
  | fileOpsInit
  | storeOpen
deriving DecidableEq

/-- The wired server configuration a successful `build` yields. -/
structure ServerModel where
  roots : List PathB
  db : PathB
deriving DecidableEq

/-- `Builder::build`, with each fallible collaborator construction
parameterized by its result; the second component records which
I/O-performing constructions ran before `build` returned. Order in the
source: connection check, broker-info check, `broker_client::new`
(awaited network I/O), crypto checks, then the `Server` literal whose
fields evaluate `AsyncFileOps::new().await`, `Fingerprinter::new(1)?`
and `Store::new(&self.db, rnd).await?` in turn. -/
def Builder.build (b : Builder) (brokerNewResult : Except Unit Unit)
    (fingerprinterResult : Except Unit Unit) (storeNewResult : Except Unit Unit) :
    (Except BuilderError ServerModel) × List IOAction :=
  match b.connection with
  | none => (.error .MissingConnection, [])
  | some _ =>
    match b.broker with
    | none => (.error .MissingBrokerInfo, [])
    | some _ =>
      match brokerNewResult with
      | .error _ => (.error .UnknownError, [.brokerConnect])
      | .ok _ =>
        match b.rnd with
        | none => (.error .MissingCrypto, [.brokerConnect])
        | some _ =>
          match b.source_key with
          | none => (.error .MissingCrypto, [.brokerConnect])
          | some _ =>
            match fingerprinterResult with
            | .error _ =>
              (.error .FingerprinterError, [.brokerConnect, .fileOpsInit])
            | .ok _ =>
              match storeNewResult with
              | .error _ =>
                (.error .UnknownError,
                 [.brokerConnect, .fileOpsInit, .storeOpen])
              | .ok _ =>
                (.ok ⟨b.roots, b.db⟩,
                 [.brokerConnect, .fileOpsInit, .storeOpen])

/-- Path lookup in the `FileId` table, as performed by `get_file_id`'s
initial `SELECT id FROM FileId WHERE path = ?1`. -/
def lookupPath (tbl : List FileIdRow) (path : PathB) : Option FileId :=
  (tbl.find? (fun r => r.path == path)).map (fun r => r.id)

/-- Path lookup at the level of the store state. -/
def pathToId (st : StoreState) (path : PathB) : Option FileId :=
  lookupPath st.fileIds path

/-- The `FileId` table is well formed: paths are pairwise distinct (the
unique index on `path`) and ids are pairwise distinct (the primary key). -/
def wfIds (tbl : List FileIdRow) : Prop :=
  (tbl.map (fun r => r.path)).Nodup ∧ (tbl.map (fun r => r.id)).Nodup

/-- The versions currently stored for an id, in table order. -/
def versionsOf (files : List FileRow) (fid : FileId) : List Nat :=
  (files.filter (fun r => r.id == fid)).map (fun r => r.version)

/-- Version invariant of the `File` table: each id's stored versions are
exactly `0, 1, …, n-1` in order. -/
def versionInv (files : List FileRow) : Prop :=
  ∀ fid, versionsOf files fid = List.range (versionsOf files fid).length

/-- Boolean success of an `Except`. -/
def exceptOkB {ε α : Type} : Except ε α → Bool
  | .ok _ => true
  | .error _ => false

lemma find?_append_none {α : Type} {p : α → Bool} {l₁ l₂ : List α}
    (h : l₁.find? p = none) : (l₁ ++ l₂).find? p = l₂.find? p := by
  simp [List.find?_append, h]

lemma find?_append_some {α : Type} {p : α → Bool} {l₁ l₂ : List α} {a : α}
    (h : l₁.find? p = some a) : (l₁ ++ l₂).find? p = some a := by
  simp [List.find?_append, h]

lemma idRetryLoop_dbAttempt_ok {tbl : List FileIdRow} :
    ∀ (gen : List FileId) (c fid : FileId) (gen' : List FileId),
      idRetryLoop (dbAttempt tbl) c gen = (.ok fid, gen') →
      tbl.any (fun r => r.id == fid) = false := by
  intro gen
  induction gen with
  | nil =>
    intro c fid gen' h
    rw [idRetryLoop] at h
    by_cases hc : tbl.any (fun r => r.id == c) = true
    · simp [dbAttempt, hc] at h
    · simp only [Bool.not_eq_true] at hc
      simp [dbAttempt, hc] at h
      rw [← h.1]
      exact hc
  | cons c2 rest ih =>
    intro c fid gen' h
    rw [idRetryLoop] at h
    by_cases hc : tbl.any (fun r => r.id == c) = true
    · simp only [dbAttempt, hc, if_true] at h
      exact ih c2 fid gen' h
    · simp only [Bool.not_eq_true] at hc
      simp [dbAttempt, hc] at h
      rw [← h.1]
      exact hc

lemma get_file_id_ok_cases {rnd : List FileId} {path : PathB}
    {tbl : List FileIdRow} {fid : FileId} {tbl' : List FileIdRow}
    {rnd' : List FileId}
    (h : get_file_id rnd path tbl = (.ok (fid, tbl'), rnd')) :
    (∃ r, tbl.find? (fun x => x.path == path) = some r ∧ fid = r.id ∧
      tbl' = tbl ∧ rnd' = rnd)
    ∨ (tbl.find? (fun x => x.path == path) = none ∧
       tbl' = tbl ++ [⟨fid, path⟩] ∧
       tbl.any (fun x => x.id == fid) = false) := by
  simp only [get_file_id, canonical_path_repr] at h
  cases hf : tbl.find? (fun r => r.path == path) with
  | some r =>
    rw [hf] at h
    simp at h
    exact Or.inl ⟨r, rfl, h.1.1.symm, h.1.2.symm, h.2.symm⟩
  | none =>
    rw [hf] at h
    cases rnd with
    | nil => simp at h
    | cons c rest =>
      simp only [] at h
      cases hloop : idRetryLoop (dbAttempt tbl) c rest with
      | mk res gen' =>
        cases res with
        | error e => rw [hloop] at h; simp at h
        | ok id =>
          rw [hloop] at h
          simp at h
          refine Or.inr ⟨rfl, ?_, ?_⟩
          · rw [← h.1.1, h.1.2]
          · rw [← h.1.1]
            exact idRetryLoop_dbAttempt_ok rest c id gen' hloop

lemma lookupPath_after_get {rnd : List FileId} {path : PathB}
    {tbl tbl' : List FileIdRow} {fid : FileId} {rnd' : List FileId}
    (h : get_file_id rnd path tbl = (.ok (fid, tbl'), rnd')) :
    lookupPath tbl' path = some fid := by
  rcases get_file_id_ok_cases h with ⟨r, hf, hid, htbl, _⟩ | ⟨hf, htbl, _⟩
  · rw [htbl]
    unfold lookupPath
    rw [hf, hid]
    rfl
  · rw [htbl]
    unfold lookupPath
    rw [find?_append_none hf]
    simp

lemma lookupPath_mono {rnd : List FileId} {path : PathB}
    {tbl tbl' : List FileIdRow} {fid : FileId} {rnd' : List FileId}
    (h : get_file_id rnd path tbl = (.ok (fid, tbl'), rnd'))
    (q : PathB) (i : FileId) (hq : lookupPath tbl q = some i) :
    lookupPath tbl' q = some i := by
  rcases get_file_id_ok_cases h with ⟨r, _, _, htbl, _⟩ | ⟨_, htbl, _⟩
  · rw [htbl]; exact hq
  · unfold lookupPath at hq ⊢
    cases hfq : tbl.find? (fun r => r.path == q) with
    | none => rw [hfq] at hq; simp at hq
    | some r =>
      rw [hfq] at hq
      rw [htbl, find?_append_some hfq]
      exact hq

lemma wfIds_after_get {rnd : List FileId} {path : PathB}
    {tbl tbl' : List FileIdRow} {fid : FileId} {rnd' : List FileId}
    (h : get_file_id rnd path tbl = (.ok (fid, tbl'), rnd'))
    (hwf : wfIds tbl) : wfIds tbl' := by
  rcases get_file_id_ok_cases h with ⟨r, _, _, htbl, _⟩ | ⟨hf, htbl, hfresh⟩
  · rw [htbl]; exact hwf
  · rw [htbl]
    constructor
    · rw [List.map_append, List.nodup_append]
      refine ⟨hwf.1, List.nodup_singleton _, ?_⟩
      simp only [List.map_cons, List.map_nil, List.disjoint_singleton]
      intro hmem
      rcases List.mem_map.mp hmem with ⟨r, hr, hrp⟩
      have := List.find?_eq_none.mp hf r hr
      simp at this
      exact this hrp
    · rw [List.map_append, List.nodup_append]
      refine ⟨hwf.2, List.nodup_singleton _, ?_⟩
      simp only [List.map_cons, List.map_nil, List.disjoint_singleton]
      intro hmem
      rcases List.mem_map.mp hmem with ⟨r, hr, hrp⟩
      have := List.any_eq_false.mp hfresh r hr
      simp at this
      exact this hrp

lemma shallow_check_files (rnd : List FileId) (info : ShallowInfo)
    (st : StoreState) :
    ((StoreRunner.shallow_check rnd info st).2.1).files = st.files := by
  unfold StoreRunner.shallow_check
  cases hg : get_file_id rnd info.file st.fileIds with
  | mk res rnd' =>
    cases res with
    | error e => simp
    | ok v =>
      obtain ⟨fid, tbl'⟩ := v
      simp only []
      cases hl : lookup_file fid st.files with
      | none => simp
      | some p => by_cases hlen : p.len ≠ info.len <;> simp [hlen]

lemma shallow_check_ok_elim {rnd : List FileId} {info : ShallowInfo}
    {st : StoreState} {c : Change} {st' : StoreState} {rnd' : List FileId}
    (h : StoreRunner.shallow_check rnd info st = (.ok c, st', rnd')) :
    ∃ fid tbl',
      get_file_id rnd info.file st.fileIds = (.ok (fid, tbl'), rnd') ∧
      st' = ⟨tbl', st.files⟩ ∧
      c = (match lookup_file fid st.files with
           | none => Change.Changed none
           | some p =>
             if p.len ≠ info.len then Change.Changed (some p)
             else Change.Unchanged p) := by
  unfold StoreRunner.shallow_check at h
  cases hg : get_file_id rnd info.file st.fileIds with
  | mk res rnd'' =>
    rw [hg] at h
    cases res with
    | error e => simp at h
    | ok v =>
      obtain ⟨fid, tbl'⟩ := v
      refine ⟨fid, tbl', ?_⟩
      simp only [] at h
      cases hl : lookup_file fid st.files with
      | none =>
        rw [hl] at h
        simp at h
        obtain ⟨hc, hst, hrnd⟩ := h
        subst hrnd
        exact ⟨rfl, hst.symm, hc.symm⟩
      | some p =>
        rw [hl] at h
        by_cases hlen : p.len ≠ info.len
        · simp only [] at h
          rw [if_pos hlen] at h
          simp at h
          obtain ⟨hc, hst, hrnd⟩ := h
          subst hrnd
          refine ⟨rfl, hst.symm, ?_⟩
          show c = if p.len ≠ info.len then Change.Changed (some p)
            else Change.Unchanged p
          rw [if_pos hlen]
          exact hc.symm
        · simp only [] at h
          rw [if_neg hlen] at h
          simp at h
          obtain ⟨hc, hst, hrnd⟩ := h
          subst hrnd
          refine ⟨rfl, hst.symm, ?_⟩
          show c = if p.len ≠ info.len then Change.Changed (some p)
            else Change.Unchanged p
          rw [if_neg hlen]
          exact hc.symm

lemma shallow_check_error_elim {rnd : List FileId} {info : ShallowInfo}
    {st : StoreState} {e : StoreError} {st' : StoreState} {rnd' : List FileId}
    (h : StoreRunner.shallow_check rnd info st = (.error e, st', rnd')) :
    st' = st := by
  unfold StoreRunner.shallow_check at h
  cases hg : get_file_id rnd info.file st.fileIds with
  | mk res rnd'' =>
    rw [hg] at h
    cases res with
    | error e2 => simp at h; exact h.2.1.symm
    | ok v =>
      obtain ⟨fid, tbl'⟩ := v
      simp only [] at h
      cases hl : lookup_file fid st.files with
      | none => rw [hl] at h; simp at h
      | some p =>
        rw [hl] at h
        by_cases hlen : p.len ≠ info.len
        · simp only [] at h; rw [if_pos hlen] at h; simp at h
        · simp only [] at h; rw [if_neg hlen] at h; simp at h

lemma insert_ok_elim {rnd : List FileId} {info : ShallowInfo}
    {st : StoreState} {p : Partial} {st' : StoreState} {rnd' : List FileId}
    (h : StoreRunner.insert rnd info st = (.ok p, st', rnd')) :
    ∃ tbl',
      get_file_id rnd info.file st.fileIds = (.ok (p.file_id, tbl'), rnd') ∧
      p.len = info.len ∧
      p.version = (match lookup_file p.file_id st.files with
                   | none => 0
                   | some q => q.version + 1) ∧
      st' = ⟨tbl', st.files ++ [⟨p.file_id, p.version, p.len⟩]⟩ := by
  unfold StoreRunner.insert at h
  cases hg : get_file_id rnd info.file st.fileIds with
  | mk res rnd'' =>
    rw [hg] at h
    cases res with
    | error e => simp at h
    | ok v =>
      obtain ⟨fid, tbl'⟩ := v
      simp at h
      obtain ⟨hp, hst, hrnd⟩ := h
      subst hrnd
      refine ⟨tbl', ?_, ?_, ?_, ?_⟩
      · rw [← hp]
      · rw [← hp]
      · rw [← hp]
      · rw [← hp, ← hst]

lemma insert_error_elim {rnd : List FileId} {info : ShallowInfo}
    {st : StoreState} {e : StoreError} {st' : StoreState} {rnd' : List FileId}
    (h : StoreRunner.insert rnd info st = (.error e, st', rnd')) :
    st' = st := by
  unfold StoreRunner.insert at h
  cases hg : get_file_id rnd info.file st.fileIds with
  | mk res rnd'' =>
    rw [hg] at h
    cases res with
    | error e2 => simp at h; exact h.2.1.symm
    | ok v =>
      obtain ⟨fid, tbl'⟩ := v
      simp at h

lemma lookup_file_eq_none {fid : FileId} {files : List FileRow} :
    lookup_file fid files = none ↔ versionsOf files fid = [] := by
  unfold lookup_file versionsOf
  cases ha : (files.filter (fun r => r.id == fid)).argmax (fun r => r.version) with
  | none =>
    rw [List.argmax_eq_none] at ha
    simp [ha]
  | some r =>
    simp only []
    constructor
    · intro h; simp at h
    · intro h
      rw [List.map_eq_nil_iff] at h
      rw [List.argmax_eq_none.mpr h] at ha
      simp at ha

lemma lookup_file_last {files : List FileRow} {fid : FileId} {n : Nat}
    (hv : versionsOf files fid = List.range (n + 1)) :
    ∃ len, lookup_file fid files = some ⟨fid, n, len⟩ := by
  unfold versionsOf at hv
  unfold lookup_file
  cases ha : (files.filter (fun r => r.id == fid)).argmax (fun r => r.version) with
  | none =>
    rw [List.argmax_eq_none] at ha
    rw [ha] at hv
    simp at hv
  | some r =>
    refine ⟨r.len, ?_⟩
    simp only []
    have hrmem : r ∈ files.filter (fun r => r.id == fid) :=
      List.argmax_mem (Option.mem_def.mpr ha)
    have hvr : r.version ∈ List.range (n + 1) := by
      rw [← hv]
      exact List.mem_map.mpr ⟨r, hrmem, rfl⟩
    have hle : r.version ≤ n := Nat.lt_succ_iff.mp (List.mem_range.mp hvr)
    have hn : n ∈ (files.filter (fun r => r.id == fid)).map
        (fun r => r.version) := by
      rw [hv]
      exact List.mem_range.mpr (Nat.lt_succ_self n)
    rcases List.mem_map.mp hn with ⟨r2, hr2, hr2v⟩
    have hge : n ≤ r.version := by
      have h2 := List.le_of_mem_argmax hr2 (Option.mem_def.mpr ha)
      rw [hr2v] at h2
      exact h2
    rw [Nat.le_antisymm hle hge]

lemma next_version_eq {files : List FileRow} {fid : FileId}
    (hinv : versionInv files) :
    (match lookup_file fid files with
     | none => 0
     | some q => q.version + 1) = (versionsOf files fid).length := by
  have hv := hinv fid
  cases hn : (versionsOf files fid).length with
  | zero =>
    have hnil : versionsOf files fid = [] := List.length_eq_zero.mp hn
    rw [lookup_file_eq_none.mpr hnil]
  | succ n =>
    rw [hn] at hv
    rcases lookup_file_last hv with ⟨len, hl⟩
    rw [hl]

lemma versionsOf_append_self (files : List FileRow) (fid : FileId)
    (v len : Nat) :
    versionsOf (files ++ [⟨fid, v, len⟩]) fid = versionsOf files fid ++ [v] := by
  unfold versionsOf
  rw [List.filter_append, List.map_append]
  simp

lemma versionsOf_append_ne (files : List FileRow) {fid fid' : FileId}
    (v len : Nat) (h : fid' ≠ fid) :
    versionsOf (files ++ [⟨fid, v, len⟩]) fid' = versionsOf files fid' := by
  unfold versionsOf
  rw [List.filter_append, List.map_append]
  have hne : (fid == fid') = false :=
    beq_eq_false_iff_ne.mpr (fun hh => h hh.symm)
  simp [hne]

lemma insert_preserves_inv {rnd : List FileId} {info : ShallowInfo}
    {st : StoreState} {p : Partial} {st' : StoreState} {rnd' : List FileId}
    (hinv : versionInv st.files)
    (h : StoreRunner.insert rnd info st = (.ok p, st', rnd')) :
    p.version = (versionsOf st.files p.file_id).length ∧
    versionsOf st'.files p.file_id =
      List.range ((versionsOf st.files p.file_id).length + 1) ∧
    versionInv st'.files := by
  rcases insert_ok_elim h with ⟨tbl', hg, hlen, hver, hst⟩
  have hv : p.version = (versionsOf st.files p.file_id).length := by
    rw [hver]
    exact next_version_eq hinv
  have hfiles : st'.files = st.files ++ [⟨p.file_id, p.version, p.len⟩] := by
    rw [hst]
  obtain ⟨L, hL⟩ : ∃ L, versionsOf st.files p.file_id = List.range L :=
    ⟨(versionsOf st.files p.file_id).length, hinv p.file_id⟩
  have hLlen : (versionsOf st.files p.file_id).length = L := by
    rw [hL, List.length_range]
  refine ⟨hv, ?_, ?_⟩
  · rw [hfiles, versionsOf_append_self, hL, hv, hLlen, ← List.range_succ,
      List.length_range]
  · intro fid'
    by_cases hf : fid' = p.file_id
    · subst hf
      rw [hfiles, versionsOf_append_self, hL, hv, hLlen, ← List.range_succ,
        List.length_range]
    · rw [hfiles, versionsOf_append_ne _ _ _ hf]
      exact hinv fid'

lemma runCmd_preserves_inv (op : StateOp) (st : StoreState) (rnd : List FileId)
    (hinv : versionInv st.files) : versionInv ((runCmd op st rnd).1).files := by
  cases op with
  | ShallowCheck info =>
    simp only [runCmd]
    rw [shallow_check_files]
    exact hinv
  | Insert info =>
    simp only [runCmd]
    cases hr : StoreRunner.insert rnd info st with
    | mk res s2 =>
      obtain ⟨st2, rnd2⟩ := s2
      cases res with
      | error e =>
        rw [insert_error_elim hr]
        exact hinv
      | ok p =>
        exact (insert_preserves_inv hinv hr).2.2

lemma run_preserves_inv :
    ∀ (cmds : List Cmd) (st : StoreState) (rnd : List FileId),
      versionInv st.files →
      versionInv ((StoreRunner.run cmds st rnd).2.1).files := by
  intro cmds
  induction cmds with
  | nil => intro st rnd h; exact h
  | cons c rest ih =>
    intro st rnd h
    simp only [StoreRunner.run]
    by_cases hal : c.receiverAlive = true
    · simp only [hal, if_true]
      exact ih _ _ (runCmd_preserves_inv c.op st rnd h)
    · simp only [Bool.not_eq_true] at hal
      simp only [hal, Bool.false_eq_true, if_false]
      exact runCmd_preserves_inv c.op st rnd h

lemma runCmd_mono (op : StateOp) (st : StoreState) (rnd : List FileId)
    (q : PathB) (i : FileId)
    (hwf : wfIds st.fileIds) (hq : lookupPath st.fileIds q = some i) :
    wfIds ((runCmd op st rnd).1).fileIds ∧
    lookupPath ((runCmd op st rnd).1).fileIds q = some i := by
  cases op with
  | ShallowCheck info =>
    simp only [runCmd]
    cases hr : StoreRunner.shallow_check rnd info st with
    | mk res s2 =>
      obtain ⟨st2, rnd2⟩ := s2
      cases res with
      | error e =>
        rw [shallow_check_error_elim hr]
        exact ⟨hwf, hq⟩
      | ok c2 =>
        rcases shallow_check_ok_elim hr with ⟨fid, tbl', hg, hst, _⟩
        rw [hst]
        exact ⟨wfIds_after_get hg hwf, lookupPath_mono hg q i hq⟩
  | Insert info =>
    simp only [runCmd]
    cases hr : StoreRunner.insert rnd info st with
    | mk res s2 =>
      obtain ⟨st2, rnd2⟩ := s2
      cases res with
      | error e =>
        rw [insert_error_elim hr]
        exact ⟨hwf, hq⟩
      | ok p =>
        rcases insert_ok_elim hr with ⟨tbl', hg, _, _, hst⟩
        rw [hst]
        exact ⟨wfIds_after_get hg hwf, lookupPath_mono hg q i hq⟩

lemma run_mono :
    ∀ (cmds : List Cmd) (st : StoreState) (rnd : List FileId)
      (q : PathB) (i : FileId),
      wfIds st.fileIds → lookupPath st.fileIds q = some i →
      wfIds (((StoreRunner.run cmds st rnd).2.1).fileIds) ∧
      lookupPath ((StoreRunner.run cmds st rnd).2.1).fileIds q = some i := by
  intro cmds
  induction cmds with
  | nil => intro st rnd q i hwf hq; exact ⟨hwf, hq⟩
  | cons c rest ih =>
    intro st rnd q i hwf hq
    simp only [StoreRunner.run]
    by_cases hal : c.receiverAlive = true
    · simp only [hal, if_true]
      rcases runCmd_mono c.op st rnd q i hwf hq with ⟨hwf', hq'⟩
      exact ih _ _ q i hwf' hq'
    · simp only [Bool.not_eq_true] at hal
      simp only [hal, Bool.false_eq_true, if_false]
      exact runCmd_mono c.op st rnd q i hwf hq

/-- C4: for every store state and every ShallowInfo, `shallow_check`
never writes a row to the version (`File`) table, and when it succeeds
it classifies against the latest stored Partial of the path's FileId:
`Changed(None)` when no Partial exists, `Changed(Some(prev))` when the
stored length differs from the observed one, and `Unchanged(prev)` when
the lengths are equal. -/
theorem shallow_check_classification (rnd : List FileId) (info : ShallowInfo)
    (st : StoreState) :
    ((StoreRunner.shallow_check rnd info st).2.1).files = st.files ∧
    (∀ c st' rnd',
      StoreRunner.shallow_check rnd info st = (.ok c, st', rnd') →
      ∃ fid, pathToId st' info.file = some fid ∧
        (lookup_file fid st.files = none → c = Change.Changed none) ∧
        (∀ prev, lookup_file fid st.files = some prev → prev.len ≠ info.len →
          c = Change.Changed (some prev)) ∧
        (∀ prev, lookup_file fid st.files = some prev → prev.len = info.len →
          c = Change.Unchanged prev)) := by
  refine ⟨shallow_check_files rnd info st, ?_⟩
  intro c st' rnd' h
  rcases shallow_check_ok_elim h with ⟨fid, tbl', hg, hst, hc⟩
  refine ⟨fid, ?_, ?_, ?_, ?_⟩
  · rw [hst]
    exact lookupPath_after_get hg
  · intro hnone
    rw [hnone] at hc
    exact hc
  · intro prev hsome hne
    rw [hsome] at hc
    simp only [] at hc
    rw [if_pos hne] at hc
    exact hc
  · intro prev hsome heq
    rw [hsome] at hc
    simp only [] at hc
    rw [if_neg (not_ne_iff.mpr heq)] at hc
    exact hc

/-- Witness for the C4 theorem: a store holding `(id, 0, 100)` for path
`[97]`, re-observed with length 100, resolves the path's id. -/
theorem shallow_check_classification_witness :
    ∃ fid,
      pathToId ⟨[⟨[1, 1, 1, 1, 1, 1], [97]⟩], [⟨[1, 1, 1, 1, 1, 1], 0, 100⟩]⟩
        [97] = some fid := by
  rcases (shallow_check_classification [] ⟨[97], 100⟩
      ⟨[⟨[1, 1, 1, 1, 1, 1], [97]⟩], [⟨[1, 1, 1, 1, 1, 1], 0, 100⟩]⟩).2
      (Change.Unchanged ⟨[1, 1, 1, 1, 1, 1], 0, 100⟩)
      ⟨[⟨[1, 1, 1, 1, 1, 1], [97]⟩], [⟨[1, 1, 1, 1, 1, 1], 0, 100⟩]⟩ []
      (by rfl) with ⟨fid, hpath, _⟩
  exact ⟨fid, hpath⟩

/-- C5: a successful `insert` appends exactly one `(FileId, version,
length)` row whose version is 0 when no prior row exists for that id and
the previous latest version plus one otherwise, and returns the
resulting Partial; the stored versions of the id extend to the gap-free
sequence `0, …, n`, and the gap-free-sequence invariant is preserved by
every run of the worker loop. -/
theorem insert_version_contract :
    (∀ (rnd : List FileId) (info : ShallowInfo) (st : StoreState)
       (p : Partial) (st' : StoreState) (rnd' : List FileId),
      versionInv st.files →
      StoreRunner.insert rnd info st = (.ok p, st', rnd') →
      st'.files = st.files ++ [⟨p.file_id, p.version, p.len⟩] ∧
      p.len = info.len ∧
      p.version = (match lookup_file p.file_id st.files with
                   | none => 0
                   | some q => q.version + 1) ∧
      versionsOf st'.files p.file_id =
        List.range ((versionsOf st.files p.file_id).length + 1) ∧
      versionInv st'.files) ∧
    (∀ (cmds : List Cmd) (st : StoreState) (rnd : List FileId),
      versionInv st.files →
      versionInv ((StoreRunner.run cmds st rnd).2.1).files) := by
  constructor
  · intro rnd info st p st' rnd' hinv h
    rcases insert_ok_elim h with ⟨tbl', hg, hlen, hver, hst⟩
    rcases insert_preserves_inv hinv h with ⟨_, hrange, hinv'⟩
    exact ⟨by rw [hst], hlen, hver, hrange, hinv'⟩
  · exact run_preserves_inv

/-- Witness for the C5 theorem: the first insert into an empty store
appends the single row `(id, 0, 100)`. -/
theorem insert_version_contract_witness :
    (⟨[⟨[5, 5, 5, 5, 5, 5], [97]⟩], [⟨[5, 5, 5, 5, 5, 5], 0, 100⟩]⟩ :
        StoreState).files =
      ([] : List FileRow) ++ [⟨[5, 5, 5, 5, 5, 5], 0, 100⟩] :=
  (insert_version_contract.1 [[5, 5, 5, 5, 5, 5]] ⟨[97], 100⟩ ⟨[], []⟩
    ⟨[5, 5, 5, 5, 5, 5], 0, 100⟩
    ⟨[⟨[5, 5, 5, 5, 5, 5], [97]⟩], [⟨[5, 5, 5, 5, 5, 5], 0, 100⟩]⟩ []
    (fun _ => rfl) (by rfl)).1

/-- C6: once a canonical path is mapped to a FileId, any sequence of
worker commands preserves that mapping — every later check or insert for
the path resolves to the FileId created on first encounter — and keeps
the `FileId` table free of duplicate paths and of duplicate ids (so no
FileId is ever associated with two different paths). -/
theorem file_id_stability (cmds : List Cmd) (st : StoreState)
    (rnd : List FileId) (path : PathB) (fid : FileId)
    (hwf : wfIds st.fileIds) (hmap : pathToId st path = some fid) :
    pathToId ((StoreRunner.run cmds st rnd).2.1) path = some fid ∧
    wfIds ((StoreRunner.run cmds st rnd).2.1).fileIds := by
  rcases run_mono cmds st rnd path fid hwf hmap with ⟨hwf', hq'⟩
  exact ⟨hq', hwf'⟩

/-- Witness for the C6 theorem: the mapping of path `[97]` survives an
intervening insert for another path `[98]`. -/
theorem file_id_stability_witness :
    pathToId ((StoreRunner.run [⟨.Insert ⟨[98], 5⟩, true⟩]
        ⟨[⟨[1, 1, 1, 1, 1, 1], [97]⟩], []⟩ [[2, 2, 2, 2, 2, 2]]).2.1) [97] =
      some [1, 1, 1, 1, 1, 1] :=
  (file_id_stability [⟨.Insert ⟨[98], 5⟩, true⟩]
    ⟨[⟨[1, 1, 1, 1, 1, 1], [97]⟩], []⟩ [[2, 2, 2, 2, 2, 2]] [97]
    [1, 1, 1, 1, 1, 1] (by constructor <;> decide) rfl).1

/-- C7: when the generator yields an already-used id and then a fresh
one for a new path, `get_file_id` retries on the uniqueness violation
and stores the fresh, distinct id with exactly one row for the path; a
database error other than a uniqueness violation aborts the retry loop
and is surfaced. -/
theorem file_id_collision_retry :
    (∀ (tbl : List FileIdRow) (pathC : PathB) (used fresh : FileId)
       (rest : List FileId),
      tbl.find? (fun r => r.path == pathC) = none →
      tbl.any (fun r => r.id == used) = true →
      tbl.any (fun r => r.id == fresh) = false →
      get_file_id (used :: fresh :: rest) pathC tbl =
        (.ok (fresh, tbl ++ [⟨fresh, pathC⟩]), rest) ∧
      fresh ≠ used ∧
      (tbl ++ [(⟨fresh, pathC⟩ : FileIdRow)]).filter
          (fun r => r.path == pathC) = [⟨fresh, pathC⟩]) ∧
    (∀ (attempt : FileId → AttemptResult) (c : FileId) (gen : List FileId)
       (code : Nat),
      attempt c = AttemptResult.otherError code →
      idRetryLoop attempt c gen = (.error (.dbError code), gen)) := by
  constructor
  · intro tbl pathC used fresh rest hfind hused hfresh
    have h1 : dbAttempt tbl used = .constraintViolation := by
      unfold dbAttempt
      rw [hused]
      rfl
    have h2 : dbAttempt tbl fresh = .ok := by
      unfold dbAttempt
      rw [hfresh]
      rfl
    have hloop : idRetryLoop (dbAttempt tbl) used (fresh :: rest) =
        (.ok fresh, rest) := by
      cases rest <;> simp [idRetryLoop, h1, h2]
    refine ⟨?_, ?_, ?_⟩
    · simp only [get_file_id, canonical_path_repr, hfind]
      rw [hloop]
    · intro heq
      rw [heq, hused] at hfresh
      simp at hfresh
    · rw [List.filter_append]
      have hall : tbl.filter (fun r => r.path == pathC) = [] :=
        List.filter_eq_nil_iff.mpr (fun r hr => List.find?_eq_none.mp hfind r hr)
      rw [hall]
      simp
  · intro attempt c gen code hattempt
    cases gen <;> simp [idRetryLoop, hattempt]

/-- Witness for the C7 theorem: a table holding id `[1,…]` for path
`[98]`; the generator yields `[1,…]` then `[2,…]` for the new path
`[99]`, which receives `[2,…]`. -/
theorem file_id_collision_retry_witness :
    get_file_id [[1, 1, 1, 1, 1, 1], [2, 2, 2, 2, 2, 2]] [99]
        [⟨[1, 1, 1, 1, 1, 1], [98]⟩] =
      (.ok ([2, 2, 2, 2, 2, 2],
        [⟨[1, 1, 1, 1, 1, 1], [98]⟩, ⟨[2, 2, 2, 2, 2, 2], [99]⟩]), []) :=
  (file_id_collision_retry.1 [⟨[1, 1, 1, 1, 1, 1], [98]⟩] [99]
    [1, 1, 1, 1, 1, 1] [2, 2, 2, 2, 2, 2] [] (by rfl) (by rfl) (by rfl)).1

/-- C9: when the latest stored Partial for a path already has exactly the
observed length, `insert` still appends a new row with the next version
and the identical length and returns it — it never compares the observed
length against the stored one and never deduplicates re-observations. -/
theorem insert_no_dedup (rnd : List FileId) (st : StoreState)
    (info : ShallowInfo) (fid : FileId) (v : Nat)
    (hmap : pathToId st info.file = some fid)
    (hlatest : lookup_file fid st.files = some ⟨fid, v, info.len⟩) :
    StoreRunner.insert rnd info st =
      (.ok ⟨fid, v + 1, info.len⟩,
       ⟨st.fileIds, st.files ++ [⟨fid, v + 1, info.len⟩]⟩, rnd) := by
  unfold pathToId lookupPath at hmap
  cases hf : st.fileIds.find? (fun r => r.path == info.file) with
  | none =>
    rw [hf] at hmap
    simp at hmap
  | some r =>
    rw [hf] at hmap
    simp at hmap
    have hg : get_file_id rnd info.file st.fileIds =
        (.ok (fid, st.fileIds), rnd) := by
      simp only [get_file_id, canonical_path_repr, hf]
      rw [hmap]
    unfold StoreRunner.insert
    rw [hg]
    simp only []
    rw [hlatest]

/-- Witness for the C9 theorem: re-observing `(id, 0, 100)` with the same
length 100 appends `(id, 1, 100)`. -/
theorem insert_no_dedup_witness :
    StoreRunner.insert [] ⟨[97], 100⟩
        ⟨[⟨[1, 1, 1, 1, 1, 1], [97]⟩], [⟨[1, 1, 1, 1, 1, 1], 0, 100⟩]⟩ =
      (.ok ⟨[1, 1, 1, 1, 1, 1], 1, 100⟩,
       ⟨[⟨[1, 1, 1, 1, 1, 1], [97]⟩],
        [⟨[1, 1, 1, 1, 1, 1], 0, 100⟩, ⟨[1, 1, 1, 1, 1, 1], 1, 100⟩]⟩, []) :=
  insert_no_dedup [] ⟨[⟨[1, 1, 1, 1, 1, 1], [97]⟩], [⟨[1, 1, 1, 1, 1, 1], 0, 100⟩]⟩
    ⟨[97], 100⟩ [1, 1, 1, 1, 1, 1] 0 rfl (by rfl)

/-- C10: under the precondition that every caller keeps its oneshot
receiver alive until the reply is sent, the worker's `send(..).unwrap()`
never panics and the loop ends with `Ok(())`; if a caller drops its
receiver before the reply (all earlier callers having kept theirs), the
worker panics at that command and terminates. -/
theorem run_unwrap_panic (cmds : List Cmd) (st : StoreState)
    (rnd : List FileId) :
    ((∀ c ∈ cmds, c.receiverAlive = true) →
      (StoreRunner.run cmds st rnd).1 = .finished (.ok ())) ∧
    (∀ (pre : List Cmd) (c : Cmd) (post : List Cmd),
      cmds = pre ++ c :: post →
      (∀ d ∈ pre, d.receiverAlive = true) →
      c.receiverAlive = false →
      (StoreRunner.run cmds st rnd).1 = .panicked) := by
  constructor
  · induction cmds generalizing st rnd with
    | nil => intro _; rfl
    | cons c rest ih =>
      intro hall
      simp only [StoreRunner.run]
      have hc : c.receiverAlive = true := hall c (by simp)
      simp only [hc, if_true]
      exact ih _ _ (fun d hd => hall d (by simp [hd]))
  · intro pre c post heq hpre hdrop
    subst heq
    revert hpre
    induction pre generalizing st rnd with
    | nil =>
      intro _
      simp only [List.nil_append, StoreRunner.run, hdrop, Bool.false_eq_true,
        if_false]
    | cons d pre' ih =>
      intro hpre
      simp only [List.cons_append, StoreRunner.run]
      have hd : d.receiverAlive = true := hpre d (by simp)
      simp only [hd, if_true]
      exact ih _ _ (fun x hx => hpre x (by simp [hx]))

/-- Witness for the C10 theorem: a command whose receiver was dropped,
preceded by one well-behaved command, makes the worker panic. -/
theorem run_unwrap_panic_witness :
    (StoreRunner.run
        [⟨.Insert ⟨[97], 1⟩, true⟩, ⟨.ShallowCheck ⟨[97], 1⟩, false⟩]
        ⟨[], []⟩ [[3, 3, 3, 3, 3, 3]]).1 = .panicked :=
  (run_unwrap_panic
      [⟨.Insert ⟨[97], 1⟩, true⟩, ⟨.ShallowCheck ⟨[97], 1⟩, false⟩]
      ⟨[], []⟩ [[3, 3, 3, 3, 3, 3]]).2
    [⟨.Insert ⟨[97], 1⟩, true⟩] ⟨.ShallowCheck ⟨[97], 1⟩, false⟩ [] rfl
    (by decide) rfl

/-- C1 counterexample: one changed file processed to successful reader
completion writes two version rows, and the first of them is written
before any chunk is read — shown by the reader-failure run, in which the
row is already present. -/
theorem single_file_counterexample :
    ((Server.single_file (.ok ()) (.ok 200) [] ⟨[97], 200⟩
        ⟨[⟨[1, 1, 1, 1, 1, 1], [97]⟩], [⟨[1, 1, 1, 1, 1, 1], 0, 100⟩]⟩).2.1).files =
      [⟨[1, 1, 1, 1, 1, 1], 0, 100⟩, ⟨[1, 1, 1, 1, 1, 1], 1, 200⟩,
       ⟨[1, 1, 1, 1, 1, 1], 2, 200⟩] ∧
    ((Server.single_file (.ok ()) (.error .ioError) [] ⟨[97], 200⟩
        ⟨[⟨[1, 1, 1, 1, 1, 1], [97]⟩], [⟨[1, 1, 1, 1, 1, 1], 0, 100⟩]⟩).2.1).files =
      [⟨[1, 1, 1, 1, 1, 1], 0, 100⟩, ⟨[1, 1, 1, 1, 1, 1], 1, 200⟩] := by
  constructor <;> rfl

/-- C1 amended: for a changed file the orchestrator records a version
twice — once right after the change verdict and before any chunk is read
(the Partial used for the encrypted descriptor), and once more when the
reader reports successful completion; a reader failure propagates with
only the first row recorded. -/
theorem single_file_two_inserts {rnd : List FileId} {info : ShallowInfo}
    {st : StoreState} {op : Option Partial} {st1 : StoreState}
    {rnd1 : List FileId} {p1 : Partial} {st2 : StoreState}
    {rnd2 : List FileId}
    (hcheck : StoreRunner.shallow_check rnd info st =
      (.ok (.Changed op), st1, rnd1))
    (hins : StoreRunner.insert rnd1 info st1 = (.ok p1, st2, rnd2)) :
    (∀ er : ReadError,
      Server.single_file (.ok ()) (.error er) rnd info st =
        (.error (.read er), st2, rnd2) ∧
      st2.files.length = st.files.length + 1) ∧
    (∀ (n : Nat) (p3 : Partial) (st3 : StoreState) (rnd3 : List FileId),
      StoreRunner.insert rnd2 info st2 = (.ok p3, st3, rnd3) →
      Server.single_file (.ok ()) (.ok n) rnd info st =
        (.ok (), st3, rnd3) ∧
      st3.files.length = st.files.length + 2) := by
  have h1 : st1.files = st.files := by
    have hs := shallow_check_files rnd info st
    rw [hcheck] at hs
    exact hs
  have h2 : st2.files.length = st.files.length + 1 := by
    rcases insert_ok_elim hins with ⟨tbl', _, _, _, hst⟩
    rw [hst]
    simp [h1]
  constructor
  · intro er
    refine ⟨?_, h2⟩
    unfold Server.single_file
    rw [hcheck]
    simp only []
    rw [hins]
  · intro n p3 st3 rnd3 hins2
    have h3 : st3.files.length = st.files.length + 2 := by
      rcases insert_ok_elim hins2 with ⟨tbl', _, _, _, hst⟩
      rw [hst]
      simp [h2]
    refine ⟨?_, h3⟩
    unfold Server.single_file
    rw [hcheck]
    simp only []
    rw [hins]
    simp only []
    rw [hins2]

/-- Witness for the amended C1 theorem: a changed observation of length
60 over a stored `(id, 0, 50)`; the reader-failure run stops with one new
row recorded. -/
theorem single_file_two_inserts_witness :
    Server.single_file (.ok ()) (.error .ioError) [] ⟨[98], 60⟩
        ⟨[⟨[7, 7, 7, 7, 7, 7], [98]⟩], [⟨[7, 7, 7, 7, 7, 7], 0, 50⟩]⟩ =
      (.error (.read .ioError),
       ⟨[⟨[7, 7, 7, 7, 7, 7], [98]⟩],
        [⟨[7, 7, 7, 7, 7, 7], 0, 50⟩, ⟨[7, 7, 7, 7, 7, 7], 1, 60⟩]⟩, []) ∧
    ([(⟨[7, 7, 7, 7, 7, 7], 0, 50⟩ : FileRow), ⟨[7, 7, 7, 7, 7, 7], 1, 60⟩] :
        List FileRow).length =
      ([(⟨[7, 7, 7, 7, 7, 7], 0, 50⟩ : FileRow)] : List FileRow).length + 1 :=
  (single_file_two_inserts (by rfl) (by rfl)).1 .ioError

/-- C2 counterexample: a worker that finished with a terminal database
error still makes `shutdown` return `Ok(())` — the error is not
propagated to the caller. -/
theorem shutdown_counterexample :
    Store.shutdown (.finished (.error (.dbError 5))) = .ok () ∧
    Store.shutdown (.finished (.error (.dbError 5))) ≠
      .error (.worker (.dbError 5)) := by
  decide

/-- C2 amended: whatever result the runner finishes with, `shutdown`
returns `Ok(())` — the terminal error is only logged inside the spawned
closure and discarded; only a worker panic surfaces, as a join error. -/
theorem shutdown_amended :
    (∀ res : Except StoreError Unit, Store.shutdown (.finished res) = .ok ()) ∧
    Store.shutdown .panicked = .error .joinError := by
  constructor
  · intro res
    cases res <;> rfl
  · rfl

/-- C3 counterexample: an execution whose `single_pass` fails with a file
read error returns from `serve` without invoking the store's shutdown. -/
theorem serve_counterexample :
    (Server.serve [.File ⟨[97], 200⟩ (.ok ()) (.error .ioError)]
        ⟨[⟨[1, 1, 1, 1, 1, 1], [97]⟩], [⟨[1, 1, 1, 1, 1, 1], 0, 100⟩]⟩ []
        (.finished (.ok ()))).shutdownInvoked = false ∧
    (Server.single_pass [.File ⟨[97], 200⟩ (.ok ()) (.error .ioError)]
        ⟨[⟨[1, 1, 1, 1, 1, 1], [97]⟩], [⟨[1, 1, 1, 1, 1, 1], 0, 100⟩]⟩ []).1 =
      .error (.read .ioError) := by
  constructor <;> rfl

/-- C3 amended: `Store::shutdown` is invoked before `serve` returns
exactly when `single_pass` succeeds; a fatal pass error makes `serve`
return early, without shutting the store down. -/
theorem serve_shutdown_iff (events : List WalkEvent) (st : StoreState)
    (rnd : List FileId) (w : WorkerOutcome) :
    (Server.serve events st rnd w).shutdownInvoked =
      exceptOkB (Server.single_pass events st rnd).1 := by
  unfold Server.serve
  cases hp : Server.single_pass events st rnd with
  | mk res s2 =>
    cases res with
    | error e => rfl
    | ok u =>
      cases hs : Store.shutdown w with
      | error e => rfl
      | ok u2 => rfl

/-- C8 counterexample: with connection and broker settings supplied but
crypto missing, `build` surfaces `MissingCrypto` only after the awaited
broker connection — an I/O action precedes the missing-input error. -/
theorem build_counterexample :
    Builder.build ⟨[], some 0, some 0, [], none, none⟩
        (.ok ()) (.ok ()) (.ok ()) =
      (.error .MissingCrypto, [.brokerConnect]) ∧
    ([IOAction.brokerConnect] : List IOAction) ≠ [] := by
  constructor
  · rfl
  · simp

/-- C8 amended: each missing required input yields its distinct error —
`MissingConnection`, `MissingBrokerInfo`, `MissingCrypto` (the latter for
either missing half of the crypto material) — and the connection and
broker checks are surfaced before any I/O, but a missing crypto input is
surfaced only after the broker connection I/O has been performed. -/
theorem build_missing_input_errors (b : Builder)
    (br fp stn : Except Unit Unit) :
    (b.connection = none →
      b.build br fp stn = (.error .MissingConnection, [])) ∧
    (∀ cv, b.connection = some cv → b.broker = none →
      b.build br fp stn = (.error .MissingBrokerInfo, [])) ∧
    (∀ cv bv, b.connection = some cv → b.broker = some bv → br = .ok () →
      b.rnd = none →
      b.build br fp stn = (.error .MissingCrypto, [.brokerConnect])) ∧
    (∀ cv bv rv, b.connection = some cv → b.broker = some bv → br = .ok () →
      b.rnd = some rv → b.source_key = none →
      b.build br fp stn = (.error .MissingCrypto, [.brokerConnect])) := by
  refine ⟨?_, ?_, ?_, ?_⟩
  · intro h1
    unfold Builder.build
    rw [h1]
  · intro cv h1 h2
    unfold Builder.build
    rw [h1, h2]
  · intro cv bv h1 h2 h3 h4
    unfold Builder.build
    rw [h1, h2, h3, h4]
  · intro cv bv rv h1 h2 h3 h4 h5
    unfold Builder.build
    rw [h1, h2, h3, h4, h5]

/-- Witness for the amended C8 theorem: a builder with connection and
broker info but no random generator fails with `MissingCrypto` after the
broker connection. -/
theorem build_missing_input_errors_witness :
    Builder.build ⟨[], some 1, some 2, [], none, some 3⟩
        (.ok ()) (.ok ()) (.ok ()) =
      (.error .MissingCrypto, [.brokerConnect]) :=
  (build_missing_input_errors ⟨[], some 1, some 2, [], none, some 3⟩
    (.ok ()) (.ok ()) (.ok ())).2.2.1 1 2 rfl rfl rfl rfl
